import Mathlib

/-!
Verification of the icecap MPQ/DBC codec stack against its specification.

The archive / record-database implementation package
(`icecap/infrastructure/resource/...`) is not present under `src/`; only its
unit tests are.  Every definition below is therefore modelled from the spec
(`spec.md`), with the repository's unit tests pinning concrete behaviour
where they speak.  Python byte strings and text strings are both modelled as
`List Nat` (byte values / code points); Python's ASCII case mappings are
modelled explicitly; 32-bit arithmetic is `Nat` arithmetic reduced `% 2^32`.
-/

/-- Python strings / bytes, modelled as lists of naturals
(code points for text, byte values for bytes). -/
abbrev PyStr := List Nat

/-- Convert a Lean string literal of ASCII characters to the model type. -/
def pyOfString (s : String) : PyStr := s.toList.map Char.toNat

/-- Modelled from the spec: Python `str.upper` on one character,
restricted to the ASCII range (`a`-`z` map to `A`-`Z`, others unchanged);
archive member names are ASCII. -/
def pyUpperChar (c : Nat) : Nat := if 97 ≤ c ∧ c ≤ 122 then c - 32 else c

/-- Modelled from the spec: Python `str.lower` on one character,
restricted to the ASCII range. -/
def pyLowerChar (c : Nat) : Nat := if 65 ≤ c ∧ c ≤ 90 then c + 32 else c

/-- Python `str.upper` over a whole string. -/
def pyUpper (s : PyStr) : PyStr := s.map pyUpperChar

/-- Python `str.lower` over a whole string. -/
def pyLower (s : PyStr) : PyStr := s.map pyLowerChar

/-! ## HashEngine (`Crypt`)

Modelled from the spec (§4.1): a deterministic keystream table of 1280
32-bit words built once from a fixed seed, three named hash functions over
uppercased input, and a 4-byte-word block decryption routine. The concrete
constants are the standard MPQ one-way hash / decryption constants the spec's
wording describes. -/

/-- The linear-congruential seed stream used to build the crypt table:
seed₀ = 0x00100001, seedₙ₊₁ = (seedₙ * 125 + 3) % 0x2AAAAB. -/
def cryptSeedAt : Nat → Nat
  | 0 => 0x00100001
  | n + 1 => (cryptSeedAt n * 125 + 3) % 0x2AAAAB

/-- Modelled from the spec: the keystream table, index 0..1279 → 32-bit word.
Entry `i + 0x100 * g` (i < 256, g < 5) is built from the (2·(5·i+g)+1)-th and
(2·(5·i+g)+2)-th seeds: high 16 bits from the first, low 16 bits from the
second. -/
def cryptTable (index : Nat) : Nat :=
  let i := index % 256
  let g := index / 256
  let k := 5 * i + g
  (((cryptSeedAt (2 * k + 1)) &&& 0xFFFF) <<< 16) ||| ((cryptSeedAt (2 * k + 2)) &&& 0xFFFF)

/-- The three hash kinds the spec names (TABLE, NAME_A, NAME_B).  Their
numeric ordinals select the 256-entry group of the crypt table. -/
inductive HashType where
  | TABLE
  | NAME_A
  | NAME_B
deriving DecidableEq, Repr

/-- Crypt-table group ordinal of a hash kind. -/
def HashType.ordinal : HashType → Nat
  | .TABLE => 0
  | .NAME_A => 1
  | .NAME_B => 2

/-- One mixing step of the MPQ hash: given the running pair (seed1, seed2)
and the next (already uppercased) character, produce the next pair; all
arithmetic is 32-bit. -/
def hashStep (kind : Nat) (acc : Nat × Nat) (ch : Nat) : Nat × Nat :=
  let value := cryptTable ((kind <<< 8) + ch)
  let s1 := (value ^^^ (acc.1 + acc.2)) % 2 ^ 32
  let s2 := (ch + s1 + acc.2 + (acc.2 <<< 5) + 3) % 2 ^ 32
  (s1, s2)

/-- Modelled from the spec: `Crypt.hash(name, kind)` — uppercase the input,
then fold the mixing step over its characters from the fixed seeds
(0x7FED7FED, 0xEEEEEEEE); the result is the final seed1. -/
def mpqHash (name : PyStr) (kind : HashType) : Nat :=
  ((pyUpper name).foldl (hashStep kind.ordinal) (0x7FED7FED, 0xEEEEEEEE)).1

/-- Split a 32-bit word into its 4 little-endian bytes. -/
def bytesOfWord (v : Nat) : List Nat :=
  [v % 256, v / 256 % 256, v / 65536 % 256, v / 16777216 % 256]

/-- Modelled from the spec: the word loop of `Crypt.decrypt`.  Consumes
consecutive full 4-byte little-endian words; a trailing partial word is
dropped.  Per word: advance the running accumulator `seed` via the crypt
table indexed by the low byte of the evolving key, XOR to recover the
plaintext word, rotate/update the key, update the accumulator. -/
def decryptWords : List Nat → Nat → Nat → List Nat
  | b0 :: b1 :: b2 :: b3 :: rest, key, seed =>
    let seed1 := (seed + cryptTable (0x400 + key % 256)) % 2 ^ 32
    let cipher := b0 + 256 * b1 + 65536 * b2 + 16777216 * b3
    let value := (cipher ^^^ (key + seed1)) % 2 ^ 32
    let key' := (((2 ^ 32 - 1 - key % 2 ^ 32) <<< 21 + 0x11111111) % 2 ^ 32) ||| (key % 2 ^ 32 >>> 11)
    let seed2 := (value + seed1 + (seed1 <<< 5) + 3) % 2 ^ 32
    bytesOfWord value ++ decryptWords rest key' seed2
  | _, _, _ => []

/-- Modelled from the spec: `Crypt.decrypt(data, key)`; the accumulator is
seeded to the fixed constant 0xEEEEEEEE. -/
def mpqDecrypt (data : PyStr) (key : Nat) : PyStr :=
  decryptWords data key 0xEEEEEEEE

/-! ### Case-insensitivity groundwork (C7) -/

theorem pyUpperChar_pyUpperChar (c : Nat) :
    pyUpperChar (pyUpperChar c) = pyUpperChar c := by
  unfold pyUpperChar
  split_ifs <;> omega

theorem pyUpperChar_pyLowerChar (c : Nat) :
    pyUpperChar (pyLowerChar c) = pyUpperChar c := by
  unfold pyUpperChar pyLowerChar
  split_ifs <;> omega

theorem pyUpper_pyUpper (s : PyStr) : pyUpper (pyUpper s) = pyUpper s := by
  unfold pyUpper
  rw [List.map_map]
  exact List.map_congr_left fun c _ => pyUpperChar_pyUpperChar c

theorem pyUpper_pyLower (s : PyStr) : pyUpper (pyLower s) = pyUpper s := by
  unfold pyUpper pyLower
  rw [List.map_map]
  exact List.map_congr_left fun c _ => pyUpperChar_pyLowerChar c

/-- C7. The MPQ hash is case-insensitive: hashing a name, its uppercased
form and its lowercased form give the same value, for each of the three
hash kinds. -/
theorem c7_hash_case_insensitive (s : PyStr) (k : HashType) :
    mpqHash (pyUpper s) k = mpqHash s k ∧ mpqHash (pyLower s) k = mpqHash s k := by
  unfold mpqHash
  rw [pyUpper_pyUpper, pyUpper_pyLower]
  exact ⟨rfl, rfl⟩

/-! ### Decrypt length (C8) -/

theorem decryptWords_length :
    ∀ (n : Nat) (bs : List Nat) (key seed : Nat), bs.length ≤ n →
      (decryptWords bs key seed).length = 4 * (bs.length / 4)
  | 0, bs, key, seed, h => by
    have : bs = [] := List.eq_nil_of_length_eq_zero (Nat.le_zero.mp h)
    subst this
    rfl
  | n + 1, [], key, seed, _ => rfl
  | n + 1, [b0], key, seed, _ => by simp [decryptWords]
  | n + 1, [b0, b1], key, seed, _ => by simp [decryptWords]
  | n + 1, [b0, b1, b2], key, seed, _ => by simp [decryptWords]
  | n + 1, b0 :: b1 :: b2 :: b3 :: rest, key, seed, h => by
    have hr : rest.length ≤ n := by
      simp only [List.length_cons] at h
      omega
    simp only [decryptWords, List.length_append, List.length_cons, bytesOfWord]
    rw [decryptWords_length n rest _ _ hr]
    simp only [List.length_cons, List.length_nil]
    omega

theorem decryptWords_take :
    ∀ (n : Nat) (bs : List Nat) (key seed : Nat), bs.length ≤ n →
      decryptWords bs key seed = decryptWords (bs.take (4 * (bs.length / 4))) key seed
  | 0, bs, key, seed, h => by
    have : bs = [] := List.eq_nil_of_length_eq_zero (Nat.le_zero.mp h)
    subst this
    rfl
  | n + 1, [], key, seed, _ => rfl
  | n + 1, [b0], key, seed, _ => by simp [decryptWords]
  | n + 1, [b0, b1], key, seed, _ => by simp [decryptWords]
  | n + 1, [b0, b1, b2], key, seed, _ => by simp [decryptWords]
  | n + 1, b0 :: b1 :: b2 :: b3 :: rest, key, seed, h => by
    have hr : rest.length ≤ n := by
      simp only [List.length_cons] at h
      omega
    have h4 : 4 * ((b0 :: b1 :: b2 :: b3 :: rest).length / 4) =
        4 + 4 * (rest.length / 4) := by
      simp only [List.length_cons]
      omega
    rw [h4, List.take_add,
      show (b0 :: b1 :: b2 :: b3 :: rest).take 4 = [b0, b1, b2, b3] from rfl,
      show (b0 :: b1 :: b2 :: b3 :: rest).drop 4 = rest from rfl]
    simp only [List.cons_append, List.nil_append]
    simp only [decryptWords]
    rw [← decryptWords_take n rest _ _ hr]

/-- C8. `decrypt` returns exactly `4 * (len / 4)` bytes: every full 4-byte
word is decrypted and a trailing partial word is dropped — the output
coincides with decrypting the input truncated to whole words — and
decrypting the empty buffer yields the empty byte string. -/
theorem c8_decrypt_partial_word (b : PyStr) (key : Nat) :
    (mpqDecrypt b key).length = 4 * (b.length / 4) ∧
    mpqDecrypt b key = mpqDecrypt (b.take (4 * (b.length / 4))) key ∧
    mpqDecrypt [] key = [] :=
  ⟨decryptWords_length b.length b key 0xEEEEEEEE (Nat.le_refl _),
    decryptWords_take b.length b key 0xEEEEEEEE (Nat.le_refl _), rfl⟩

/-! ## ArchiveReader (`MPQArchive`)

Modelled from the spec (§4.2, §6): header parsing over little-endian bytes,
hash/block table entries, filename resolution, and file reading with the
compression-tag dispatch.  The backing byte source is immutable
(`List Nat`); reads beyond the end are modelled as zero bytes. -/

/-- Little-endian u16 read at an offset. -/
def readU16 (bs : List Nat) (off : Nat) : Nat :=
  bs.getD off 0 + 256 * bs.getD (off + 1) 0

/-- Little-endian u32 read at an offset. -/
def readU32 (bs : List Nat) (off : Nat) : Nat :=
  readU16 bs off + 65536 * readU16 bs (off + 2)

/-- Little-endian u64 read at an offset. -/
def readU64 (bs : List Nat) (off : Nat) : Nat :=
  readU32 bs off + 4294967296 * readU32 bs (off + 4)

/-- Two's-complement reinterpretation of a u16 as an i16. -/
def asI16 (v : Nat) : Int :=
  if v < 2 ^ 15 then (v : Int) else (v : Int) - 2 ^ 16

/-- Two's-complement reinterpretation of a u64 as an i64. -/
def asI64 (v : Nat) : Int :=
  if v < 2 ^ 63 then (v : Int) else (v : Int) - 2 ^ 64

/-- The v1-only header extension (spec §3). -/
structure HeaderExtension where
  extended_block_table_offset : Int
  hash_table_offset_high : Int
  block_table_offset_high : Int
deriving DecidableEq, Repr

/-- The archive header (spec §3, §6). -/
structure Header where
  magic : PyStr
  header_size : Nat
  archive_size : Nat
  format_version : Nat
  block_size : Nat
  hash_table_offset : Nat
  block_table_offset : Nat
  hash_table_size : Nat
  block_table_size : Nat
  extension : Option HeaderExtension
deriving DecidableEq, Repr

/-- The error taxonomy of the reader (spec §7): FormatError cases
(invalid magic, shunt variant, unsupported version), NotSupportedError cases
(encrypted member, unknown compression), plus a defensive case for a block
index outside the block table. -/
inductive MPQError where
  | invalidHeader
  | shuntNotSupported
  | unsupportedVersion
  | encryptionNotSupported
  | unsupportedCompression
  | blockIndexOutOfRange
deriving DecidableEq, Repr

/-- The 4-byte archive magic `MPQ\x1a`. -/
def mpqMagic : PyStr := [77, 80, 81, 26]

/-- The distinct 4-byte shunt signature `MPQ\x1b`. -/
def mpqShuntMagic : PyStr := [77, 80, 81, 27]

/-- Modelled from the spec: `MPQArchive.get_header`.  Reads the 4-byte magic
first; the shunt signature fails distinctly from an invalid signature;
format_version 0 and 1 are accepted (v1 additionally parses the header
extension), version ≥ 2 fails. -/
def getHeader (bs : List Nat) : Except MPQError Header :=
  if bs.take 4 = mpqMagic then
    if readU16 bs 12 ≤ 1 then
      .ok
        { magic := mpqMagic
          header_size := readU32 bs 4
          archive_size := readU32 bs 8
          format_version := readU16 bs 12
          block_size := readU16 bs 14
          hash_table_offset := readU32 bs 16
          block_table_offset := readU32 bs 20
          hash_table_size := readU32 bs 24
          block_table_size := readU32 bs 28
          extension :=
            if readU16 bs 12 = 1 then
              some
                { extended_block_table_offset := asI64 (readU64 bs 32)
                  hash_table_offset_high := asI16 (readU16 bs 40)
                  block_table_offset_high := asI16 (readU16 bs 42) }
            else none }
    else .error .unsupportedVersion
  else if bs.take 4 = mpqShuntMagic then .error .shuntNotSupported
  else .error .invalidHeader

/-- Header bytes with a given format_version; the other fields are fixed to
the values the repository's unit tests use (header_size 32, archive_size
1024, block_size 3, offsets 32/128, table sizes 16/8). -/
def mkHeaderBytes (version : Nat) : List Nat :=
  [77, 80, 81, 26,
   32, 0, 0, 0,
   0, 4, 0, 0,
   version % 256, version / 256 % 256,
   3, 0,
   32, 0, 0, 0,
   128, 0, 0, 0,
   16, 0, 0, 0,
   8, 0, 0, 0]

/-- A hash table entry (16 bytes at rest, spec §3). -/
structure HashTableEntry where
  name1 : Nat
  name2 : Nat
  locale : Nat
  platform : Nat
  block_index : Nat
deriving DecidableEq, Repr

/-- A block table entry (16 bytes at rest, spec §3). -/
structure BlockTableEntry where
  file_position : Nat
  compressed_size : Nat
  uncompressed_size : Nat
  flags : Nat
deriving DecidableEq, Repr

/-- Block flag: the member exists. -/
def MPQ_FILE_EXISTS : Nat := 0x80000000

/-- Block flag: the member is encrypted (unsupported). -/
def MPQ_FILE_ENCRYPTED : Nat := 0x00010000

/-- A reader over one parsed archive: its hash table entries, block table
entries, and the immutable backing bytes. -/
structure Archive where
  hashEntries : List HashTableEntry
  blockEntries : List BlockTableEntry
  data : List Nat

/-- Scan the entries for the first whose stored name hashes match the pair
(nameHashA, nameHashB) (spec §4.2). -/
def findHashEntry (entries : List HashTableEntry) (a b : Nat) : Option HashTableEntry :=
  match entries with
  | [] => none
  | e :: rest => if e.name1 = a ∧ e.name2 = b then some e else findHashEntry rest a b

/-- Modelled from the spec: `MPQArchive.get_hash_table_entry(name)` — the
first entry whose stored hashes equal hash(name, NAME_A) / hash(name, NAME_B),
absent if none match. -/
def get_hash_table_entry (ar : Archive) (name : PyStr) : Option HashTableEntry :=
  findHashEntry ar.hashEntries (mpqHash name .NAME_A) (mpqHash name .NAME_B)

/-- Modelled from the spec: `MPQArchive.file_exists(name)` — true iff a
matching hash entry exists and its referenced block entry has the EXISTS
flag set.  (The repository's unit test `test_file_exists_true` exercises
only the hash-entry match with no block table in reach, so the original
code may not consult the block flags; the spec's words are modelled.) -/
def file_exists (ar : Archive) (name : PyStr) : Bool :=
  match get_hash_table_entry ar name with
  | none => false
  | some e =>
    match ar.blockEntries[e.block_index]? with
    | none => false
    | some b => b.flags &&& MPQ_FILE_EXISTS != 0

/-- Modelled from the spec: `MPQArchive._decompress_data`.  The first byte is
the compression tag: 0x02 zlib and 0x10 bzip2 decode the remainder through
the external codec (passed as a parameter); any other tag is unsupported.
For tag 0x00 the unit test `test_decompress_uncompressed_data` fixes the
result to be the input verbatim, tag byte included (`assert result == data`). -/
def decompressData (zl bz : PyStr → PyStr) : PyStr → Except MPQError PyStr
  | [] => .error .unsupportedCompression
  | tag :: rest =>
    if tag = 0 then .ok (tag :: rest)
    else if tag = 2 then .ok (zl rest)
    else if tag = 16 then .ok (bz rest)
    else .error .unsupportedCompression

/-- Modelled from the spec: `MPQArchive.read_file(name)`.  Resolve the hash
entry (absent if none), then its block entry; zero compressed or
uncompressed size is absent; the ENCRYPTED flag fails; otherwise read
compressed_size bytes at file_position and, exactly when the stored size
differs from the uncompressed size, run the compression-tag dispatch. -/
def read_file (zl bz : PyStr → PyStr) (ar : Archive) (name : PyStr) :
    Except MPQError (Option PyStr) :=
  match get_hash_table_entry ar name with
  | none => .ok none
  | some e =>
    match ar.blockEntries[e.block_index]? with
    | none => .error .blockIndexOutOfRange
    | some b =>
      if b.compressed_size = 0 ∨ b.uncompressed_size = 0 then .ok none
      else if b.flags &&& MPQ_FILE_ENCRYPTED != 0 then .error .encryptionNotSupported
      else
        let raw := (ar.data.drop b.file_position).take b.compressed_size
        if b.compressed_size = b.uncompressed_size then .ok (some raw)
        else (decompressData zl bz raw).map some

/-! ### Header acceptance and rejection (C4) -/

/-- C4. `get_header` succeeds for format_version 0 and for format_version 1
(parsing the extension), fails with the unsupported-version error for every
format_version ≥ 2, rejects the shunt signature with an error distinct from
the invalid-signature error. -/
theorem c4_get_header_versions (v : Nat) (h2 : 2 ≤ v) (hlt : v < 2 ^ 16) :
    (∃ h, getHeader (mkHeaderBytes 0) = .ok h ∧ h.format_version = 0 ∧ h.extension = none) ∧
    (∃ h, getHeader (mkHeaderBytes 1 ++ List.replicate 12 0) = .ok h ∧
      h.format_version = 1 ∧ h.extension ≠ none) ∧
    getHeader (mkHeaderBytes v) = .error .unsupportedVersion ∧
    getHeader mpqShuntMagic = .error .shuntNotSupported ∧
    getHeader (pyOfString "INVALID") = .error .invalidHeader ∧
    MPQError.shuntNotSupported ≠ MPQError.invalidHeader := by
  refine ⟨⟨_, rfl, rfl, rfl⟩, ⟨_, rfl, rfl, by decide⟩, ?_, rfl, rfl, by decide⟩
  have hv : readU16 (mkHeaderBytes v) 12 = v % 256 + 256 * (v / 256 % 256) := rfl
  unfold getHeader
  rw [if_pos (show (mkHeaderBytes v).take 4 = mpqMagic from rfl)]
  rw [if_neg (by rw [hv]; omega)]

/-- Witness for C4 at format_version 2. -/
theorem c4_get_header_versions_witness :
    getHeader (mkHeaderBytes 2) = .error .unsupportedVersion :=
  (c4_get_header_versions 2 (by decide) (by decide)).2.2.1

/-! ### Absent results of `read_file` (C6) -/

/-- C6. `read_file` yields the absent value (no exception) when no hash
entry matches the name, and likewise when the matched block entry has
compressed_size 0 or uncompressed_size 0. -/
theorem c6_read_file_absent (zl bz : PyStr → PyStr) (ar : Archive) (name : PyStr)
    (e : HashTableEntry) (b : BlockTableEntry)
    (hfind : get_hash_table_entry ar name = some e)
    (hblock : ar.blockEntries[e.block_index]? = some b)
    (hzero : b.compressed_size = 0 ∨ b.uncompressed_size = 0) :
    read_file zl bz ar name = .ok none ∧
    (∀ (ar2 : Archive) (name2 : PyStr), get_hash_table_entry ar2 name2 = none →
      read_file zl bz ar2 name2 = .ok none) := by
  constructor
  · unfold read_file
    simp only [hfind, hblock, if_pos hzero]
  · intro ar2 name2 hnone
    unfold read_file
    simp only [hnone]

/-- Witness for C6: a one-entry archive whose block entry has both sizes 0;
the empty member name hashes to the initial seeds, matching the entry. -/
theorem c6_read_file_absent_witness :
    read_file id id
      { hashEntries := [{ name1 := 0x7FED7FED, name2 := 0x7FED7FED, locale := 0,
                          platform := 0, block_index := 0 }],
        blockEntries := [{ file_position := 100, compressed_size := 0,
                           uncompressed_size := 0, flags := MPQ_FILE_EXISTS }],
        data := [] } [] = .ok none :=
  (c6_read_file_absent id id
    { hashEntries := [{ name1 := 0x7FED7FED, name2 := 0x7FED7FED, locale := 0,
                        platform := 0, block_index := 0 }],
      blockEntries := [{ file_position := 100, compressed_size := 0,
                         uncompressed_size := 0, flags := MPQ_FILE_EXISTS }],
      data := [] } []
    { name1 := 0x7FED7FED, name2 := 0x7FED7FED, locale := 0, platform := 0, block_index := 0 }
    { file_position := 100, compressed_size := 0, uncompressed_size := 0,
      flags := MPQ_FILE_EXISTS }
    rfl rfl (Or.inl rfl)).1

/-! ### `file_exists` characterization (C2) -/

theorem findHashEntry_eq_find? (entries : List HashTableEntry) (a b : Nat) :
    findHashEntry entries a b =
      entries.find? (fun x => x.name1 == a && x.name2 == b) := by
  induction entries with
  | nil => rfl
  | cons e rest ih =>
    unfold findHashEntry
    rw [List.find?_cons]
    by_cases h : e.name1 = a ∧ e.name2 = b
    · rw [if_pos h]
      have : (e.name1 == a && e.name2 == b) = true := by
        simp [h.1, h.2]
      rw [this]
    · rw [if_neg h]
      have : (e.name1 == a && e.name2 == b) = false := by
        rcases Decidable.not_and_iff_or_not.mp h with h1 | h1 <;> simp [h1]
      rw [this]
      exact ih

theorem findHashEntry_none_of_no_match (entries : List HashTableEntry) (a b : Nat)
    (h : ∀ e ∈ entries, e.name1 ≠ a ∨ e.name2 ≠ b) : findHashEntry entries a b = none := by
  induction entries with
  | nil => rfl
  | cons e rest ih =>
    unfold findHashEntry
    rw [if_neg]
    · exact ih fun x hx => h x (List.mem_cons_of_mem e hx)
    · rcases h e (List.mem_cons_self e rest) with h1 | h1 <;> tauto

theorem file_exists_iff (ar : Archive) (name : PyStr) :
    file_exists ar name = true ↔
      ∃ e, get_hash_table_entry ar name = some e ∧
        ∃ b, ar.blockEntries[e.block_index]? = some b ∧
          b.flags &&& MPQ_FILE_EXISTS ≠ 0 := by
  unfold file_exists
  cases hfind : get_hash_table_entry ar name with
  | none => simp
  | some e =>
    cases hb : ar.blockEntries[e.block_index]? with
    | none => simp [hb]
    | some b => simp [hb, bne_iff_ne]

/-- C2. `file_exists(name)` is true exactly when the first hash entry whose
stored name hashes equal hash(name, NAME_A) and hash(name, NAME_B) exists
and the block entry it references has the EXISTS flag set; when no entry
matches, it is false. -/
theorem c2_file_exists (ar : Archive) (name : PyStr) :
    (file_exists ar name = true ↔
      ∃ e, ar.hashEntries.find?
            (fun x => x.name1 == mpqHash name .NAME_A && x.name2 == mpqHash name .NAME_B) =
          some e ∧
        ∃ b, ar.blockEntries[e.block_index]? = some b ∧
          b.flags &&& MPQ_FILE_EXISTS ≠ 0) ∧
    ((∀ e ∈ ar.hashEntries,
        e.name1 ≠ mpqHash name .NAME_A ∨ e.name2 ≠ mpqHash name .NAME_B) →
      file_exists ar name = false) := by
  constructor
  · rw [file_exists_iff]
    unfold get_hash_table_entry
    rw [findHashEntry_eq_find?]
  · intro hno
    unfold file_exists get_hash_table_entry
    rw [findHashEntry_none_of_no_match _ _ _ hno]

/-- Witness for C2: a one-entry archive matched by the empty name with an
EXISTS-flagged block entry; `file_exists` returns true. -/
theorem c2_file_exists_witness :
    file_exists
      { hashEntries := [{ name1 := 0x7FED7FED, name2 := 0x7FED7FED, locale := 0,
                          platform := 0, block_index := 0 }],
        blockEntries := [{ file_position := 0, compressed_size := 4,
                           uncompressed_size := 4, flags := MPQ_FILE_EXISTS }],
        data := [] } [] = true :=
  (c2_file_exists
    { hashEntries := [{ name1 := 0x7FED7FED, name2 := 0x7FED7FED, locale := 0,
                        platform := 0, block_index := 0 }],
      blockEntries := [{ file_position := 0, compressed_size := 4,
                         uncompressed_size := 4, flags := MPQ_FILE_EXISTS }],
      data := [] } []).1.mpr
    ⟨{ name1 := 0x7FED7FED, name2 := 0x7FED7FED, locale := 0, platform := 0, block_index := 0 },
      by decide,
      { file_position := 0, compressed_size := 4, uncompressed_size := 4,
        flags := MPQ_FILE_EXISTS },
      by decide, by decide⟩

/-! ### Memoization state and the encrypted-member failure (C5) -/

/-- The reader's memoized fields (spec §3 lifecycle): header, hash table,
block table and listfile caches, each computed at most once. -/
structure ReaderCache where
  headerC : Option Header
  hashC : Option (List HashTableEntry)
  blockC : Option (List BlockTableEntry)
  namesC : Option (List PyStr)
deriving DecidableEq, Repr

/-- Modelled from the spec: memoized `get_header` against the parse result
`hdr` of the immutable backing source. -/
def getHeaderSt (hdr : Header) (s : ReaderCache) : Header × ReaderCache :=
  match s.headerC with
  | some h => (h, s)
  | none => (hdr, { s with headerC := some hdr })

/-- Modelled from the spec: memoized `get_hash_table` (forces the header
first, as the table offsets come from it). -/
def getHashTableSt (hdr : Header) (ar : Archive) (s : ReaderCache) :
    List HashTableEntry × ReaderCache :=
  let s1 := (getHeaderSt hdr s).2
  match s1.hashC with
  | some t => (t, s1)
  | none => (ar.hashEntries, { s1 with hashC := some ar.hashEntries })

/-- Modelled from the spec: memoized `get_block_table`. -/
def getBlockTableSt (hdr : Header) (ar : Archive) (s : ReaderCache) :
    List BlockTableEntry × ReaderCache :=
  let s1 := (getHeaderSt hdr s).2
  match s1.blockC with
  | some t => (t, s1)
  | none => (ar.blockEntries, { s1 with blockC := some ar.blockEntries })

/-- Modelled from the spec: `read_file` threaded through the memoization
state — identical dispatch to `read_file`, with the hash/block tables
obtained through the caches. -/
def read_fileSt (zl bz : PyStr → PyStr) (hdr : Header) (ar : Archive) (name : PyStr)
    (s : ReaderCache) : Except MPQError (Option PyStr) × ReaderCache :=
  let p1 := getHashTableSt hdr ar s
  match findHashEntry p1.1 (mpqHash name .NAME_A) (mpqHash name .NAME_B) with
  | none => (.ok none, p1.2)
  | some e =>
    let p2 := getBlockTableSt hdr ar p1.2
    match p2.1[e.block_index]? with
    | none => (.error .blockIndexOutOfRange, p2.2)
    | some b =>
      if b.compressed_size = 0 ∨ b.uncompressed_size = 0 then (.ok none, p2.2)
      else if b.flags &&& MPQ_FILE_ENCRYPTED != 0 then
        (.error .encryptionNotSupported, p2.2)
      else
        let raw := (ar.data.drop b.file_position).take b.compressed_size
        if b.compressed_size = b.uncompressed_size then (.ok (some raw), p2.2)
        else ((decompressData zl bz raw).map some, p2.2)

/-- C5. On a member whose block entry carries the ENCRYPTED flag,
`read_file` fails with the encryption NotSupportedError and returns the
memoized state exactly as it was: every populated cache field (header, hash
table, block table, listfile) is unchanged. -/
theorem c5_encrypted_preserves_cache (zl bz : PyStr → PyStr) (hdr h0 : Header)
    (ar : Archive) (name : PyStr) (s : ReaderCache)
    (ht : List HashTableEntry) (bt : List BlockTableEntry)
    (e : HashTableEntry) (b : BlockTableEntry)
    (hh : s.headerC = some h0) (hht : s.hashC = some ht) (hbt : s.blockC = some bt)
    (hfind : findHashEntry ht (mpqHash name .NAME_A) (mpqHash name .NAME_B) = some e)
    (hblock : bt[e.block_index]? = some b)
    (hcs : b.compressed_size ≠ 0) (hus : b.uncompressed_size ≠ 0)
    (henc : b.flags &&& MPQ_FILE_ENCRYPTED ≠ 0) :
    read_fileSt zl bz hdr ar name s = (.error .encryptionNotSupported, s) := by
  have hhead : getHeaderSt hdr s = (h0, s) := by
    unfold getHeaderSt
    rw [hh]
  have hhash : getHashTableSt hdr ar s = (ht, s) := by
    unfold getHashTableSt
    rw [hhead]
    simp only [hht]
  have hblk : getBlockTableSt hdr ar s = (bt, s) := by
    unfold getBlockTableSt
    rw [hhead]
    simp only [hbt]
  unfold read_fileSt
  rw [hhash]
  simp only [hfind, hblk, hblock]
  rw [if_neg (by tauto), if_pos (by simpa [bne_iff_ne] using henc)]

/-- Witness for C5: a warm-cache reader over a one-entry archive whose block
entry is flagged ENCRYPTED; the empty name matches the hash entry. -/
theorem c5_encrypted_preserves_cache_witness :
    read_fileSt id id
      { magic := mpqMagic, header_size := 32, archive_size := 1024, format_version := 0,
        block_size := 3, hash_table_offset := 32, block_table_offset := 128,
        hash_table_size := 1, block_table_size := 1, extension := none }
      { hashEntries := [{ name1 := 0x7FED7FED, name2 := 0x7FED7FED, locale := 0,
                          platform := 0, block_index := 0 }],
        blockEntries := [{ file_position := 100, compressed_size := 50,
                           uncompressed_size := 100,
                           flags := MPQ_FILE_EXISTS + MPQ_FILE_ENCRYPTED }],
        data := [] } []
      { headerC := some { magic := mpqMagic, header_size := 32, archive_size := 1024,
                          format_version := 0, block_size := 3, hash_table_offset := 32,
                          block_table_offset := 128, hash_table_size := 1,
                          block_table_size := 1, extension := none },
        hashC := some [{ name1 := 0x7FED7FED, name2 := 0x7FED7FED, locale := 0,
                         platform := 0, block_index := 0 }],
        blockC := some [{ file_position := 100, compressed_size := 50,
                          uncompressed_size := 100,
                          flags := MPQ_FILE_EXISTS + MPQ_FILE_ENCRYPTED }],
        namesC := none } =
      (.error .encryptionNotSupported,
        { headerC := some { magic := mpqMagic, header_size := 32, archive_size := 1024,
                            format_version := 0, block_size := 3, hash_table_offset := 32,
                            block_table_offset := 128, hash_table_size := 1,
                            block_table_size := 1, extension := none },
          hashC := some [{ name1 := 0x7FED7FED, name2 := 0x7FED7FED, locale := 0,
                           platform := 0, block_index := 0 }],
          blockC := some [{ file_position := 100, compressed_size := 50,
                            uncompressed_size := 100,
                            flags := MPQ_FILE_EXISTS + MPQ_FILE_ENCRYPTED }],
          namesC := none }) :=
  c5_encrypted_preserves_cache id id _ _ _ [] _ _ _ _ _
    rfl rfl rfl rfl rfl (by decide) (by decide) (by decide)

/-! ### Codec round-trips through `read_file` (C1) -/

/-- An archive holding one member at file position 0 whose stored bytes and
uncompressed size are given; its single hash entry is matched by the empty
member name. -/
def singleMemberArchive (stored : PyStr) (uncompressed : Nat) : Archive :=
  { hashEntries := [{ name1 := 0x7FED7FED, name2 := 0x7FED7FED, locale := 0,
                      platform := 0, block_index := 0 }],
    blockEntries := [{ file_position := 0, compressed_size := stored.length,
                       uncompressed_size := uncompressed, flags := MPQ_FILE_EXISTS }],
    data := stored }

/-- C1 counterexample: a member whose stored bytes are the stored-codec tag
0x00 followed by the payload `[72, 105]` (sizes differing).  `read_file`
returns the stored block verbatim, tag byte included — not the payload. -/
theorem c1_stored_tag_counterexample :
    read_file id id (singleMemberArchive [0, 72, 105] 2) [] = .ok (some [0, 72, 105]) ∧
    read_file id id (singleMemberArchive [0, 72, 105] 2) [] ≠ .ok (some [72, 105]) := by
  have h1 : read_file id id (singleMemberArchive [0, 72, 105] 2) [] =
      .ok (some [0, 72, 105]) := rfl
  refine ⟨h1, fun h => ?_⟩
  rw [h1] at h
  simp at h

theorem read_file_singleMember (zl bz : PyStr → PyStr) (stored : PyStr) (u : Nat) :
    read_file zl bz (singleMemberArchive stored u) [] =
      if stored.length = 0 ∨ u = 0 then .ok none
      else if stored.length = u then .ok (some stored)
      else (decompressData zl bz stored).map some := by
  unfold read_file
  rw [show get_hash_table_entry (singleMemberArchive stored u) [] =
      some { name1 := 0x7FED7FED, name2 := 0x7FED7FED, locale := 0,
             platform := 0, block_index := 0 } from rfl]
  simp only [singleMemberArchive, List.getElem?_cons_zero, List.drop_zero, List.take_length]
  rw [if_neg (show ¬((MPQ_FILE_EXISTS &&& MPQ_FILE_ENCRYPTED != 0) = true) by decide)]

/-- C1 (amended). For a member whose stored bytes are the tag byte followed
by the codec output (stored size differing from the uncompressed size),
`read_file` returns exactly the original payload for the zlib tag 0x02 and
the bzip2 tag 0x10; for the stored tag 0x00 it returns the stored block
verbatim, tag byte included. -/
theorem c1_codec_round_trip (zl bz : PyStr → PyStr) (b c enc : PyStr)
    (hb : b ≠ []) (hc : c ≠ [])
    (hzl : zl enc = b) (hbz : bz enc = b)
    (hne : 1 + enc.length ≠ b.length) :
    read_file zl bz (singleMemberArchive (2 :: enc) b.length) [] = .ok (some b) ∧
    read_file zl bz (singleMemberArchive (16 :: enc) b.length) [] = .ok (some b) ∧
    read_file zl bz (singleMemberArchive (0 :: c) c.length) [] = .ok (some (0 :: c)) := by
  refine ⟨?_, ?_, ?_⟩
  · rw [read_file_singleMember]
    rw [if_neg (by simp [List.length_eq_zero, hb]),
      if_neg (by simp only [List.length_cons]; omega),
      show decompressData zl bz (2 :: enc) = .ok (zl enc) from rfl, hzl]
    rfl
  · rw [read_file_singleMember]
    rw [if_neg (by simp [List.length_eq_zero, hb]),
      if_neg (by simp only [List.length_cons]; omega),
      show decompressData zl bz (16 :: enc) = .ok (bz enc) from rfl, hbz]
    rfl
  · rw [read_file_singleMember]
    rw [if_neg (by simp [List.length_eq_zero, hc]),
      if_neg (by simp only [List.length_cons]; omega),
      show decompressData zl bz (0 :: c) = .ok (0 :: c) from rfl]
    rfl

/-- Witness for C1 (amended): a three-byte codec input decoding to the
two-byte payload `[72, 105]`. -/
theorem c1_codec_round_trip_witness :
    read_file (fun _ => [72, 105]) (fun _ => [72, 105])
      (singleMemberArchive [2, 9, 9, 9] 2) [] = .ok (some [72, 105]) :=
  (c1_codec_round_trip (fun _ => [72, 105]) (fun _ => [72, 105]) [72, 105] [7] [9, 9, 9]
    (by decide) (by decide) rfl rfl (by decide)).1

/-! ## ArchiveChain (`MPQArchiveChain`)

Modelled from the spec (§4.3): an ordered list of case-insensitive filename
patterns (priority order, index 0 highest) and one identity-deduplicated
bucket of readers per priority index. -/

/-- Whether `pat` is an initial segment of `hay`. -/
def listStarts : PyStr → PyStr → Bool
  | [], _ => true
  | _ :: _, [] => false
  | a :: as, b :: bs => a == b && listStarts as bs

/-- Python's `pat in hay` substring test. -/
def listHas (pat : PyStr) : PyStr → Bool
  | [] => listStarts pat []
  | c :: cs => listStarts pat (c :: cs) || listHas pat cs

/-- An archive reader as the chain sees it: its file path, its object
identity `rid` (the chain deduplicates readers by Python object identity),
and its `file_exists` / `read_file` behaviour. -/
structure AReader where
  rid : Nat
  path : PyStr
  hasFile : PyStr → Bool
  readF : PyStr → Option PyStr

/-- The chain error (spec §7 ConfigurationError). -/
inductive ChainError where
  | noPriorityMatch
deriving DecidableEq, Repr

/-- The chain state: the priority patterns and one bucket per pattern. -/
structure Chain where
  priorities : List PyStr
  buckets : List (List AReader)

/-- A chain with the given patterns and all buckets empty. -/
def emptyChain (ps : List PyStr) : Chain :=
  { priorities := ps, buckets := List.replicate ps.length [] }

/-- Modelled from the spec: the first (lowest-index) pattern occurring as a
substring of the reader's path, both lowercased. -/
def findPriority (ps : List PyStr) (path : PyStr) : Option Nat :=
  match ps with
  | [] => none
  | p :: rest =>
    if listHas (pyLower p) (pyLower path) then some 0
    else (findPriority rest path).map (· + 1)

/-- Insert a reader into one bucket, a no-op when a reader with the same
identity is already present. -/
def bucketInsert (bkt : List AReader) (r : AReader) : List AReader :=
  if bkt.any (fun x => x.rid == r.rid) then bkt else bkt ++ [r]

/-- Modelled from the spec: `MPQArchiveChain.add_archive` — find the first
matching priority pattern (ConfigurationError if none) and insert the
reader into that bucket. -/
def add_archive (c : Chain) (r : AReader) : Except ChainError Chain :=
  match findPriority c.priorities r.path with
  | none => .error .noPriorityMatch
  | some i =>
    .ok { c with buckets := c.buckets.set i (bucketInsert (c.buckets.getD i []) r) }

/-- Scan one bucket in insertion order: the result of the first reader whose
`file_exists` is true, `none` if no reader in the bucket has the file. -/
def readBucket (bkt : List AReader) (name : PyStr) : Option (Option PyStr) :=
  match bkt with
  | [] => none
  | r :: rest => if r.hasFile name then some (r.readF name) else readBucket rest name

/-- Scan the buckets ascending by priority index. -/
def chainReadAux (bs : List (List AReader)) (name : PyStr) : Option PyStr :=
  match bs with
  | [] => none
  | bkt :: rest =>
    match readBucket bkt name with
    | some res => res
    | none => chainReadAux rest name

/-- Modelled from the spec: `MPQArchiveChain.read_file` — the first
`read_file` result (in priority order, insertion order within a bucket)
whose reader has the file; absent if none has it. -/
def chain_read_file (c : Chain) (name : PyStr) : Option PyStr :=
  chainReadAux c.buckets name

theorem getD_replicate_nilBucket (n j : Nat) :
    (List.replicate n ([] : List AReader)).getD j [] = [] := by
  induction n generalizing j with
  | zero => cases j <;> rfl
  | succ n ih =>
    cases j with
    | zero => rfl
    | succ j' => simp [List.replicate_succ, List.getD, ih j']

theorem getD_set_ne_bucket (l : List (List AReader)) (i j : Nat) (x : List AReader)
    (hij : i ≠ j) : (l.set i x).getD j [] = l.getD j [] := by
  induction l generalizing i j with
  | nil => rfl
  | cons a l ih =>
    cases i with
    | zero =>
      cases j with
      | zero => omega
      | succ j' => rfl
    | succ i' =>
      cases j with
      | zero => rfl
      | succ j' => simpa [List.getD] using ih i' j' (by omega)

theorem readBucket_none_of_all_absent (bkt : List AReader) (name : PyStr)
    (h : ∀ r ∈ bkt, r.hasFile name = false) : readBucket bkt name = none := by
  induction bkt with
  | nil => rfl
  | cons r rest ih =>
    unfold readBucket
    rw [if_neg (by simp [h r (List.mem_cons_self r rest)])]
    exact ih fun x hx => h x (List.mem_cons_of_mem r hx)

theorem chainReadAux_none_of_all_absent (bs : List (List AReader)) (name : PyStr)
    (h : ∀ bkt ∈ bs, ∀ r ∈ bkt, r.hasFile name = false) : chainReadAux bs name = none := by
  induction bs with
  | nil => rfl
  | cons bkt rest ih =>
    unfold chainReadAux
    rw [readBucket_none_of_all_absent bkt name (h bkt (List.mem_cons_self bkt rest))]
    exact ih fun b hb => h b (List.mem_cons_of_mem bkt hb)

theorem chainReadAux_two_buckets (n i j : Nat) (r1 r2 : AReader) (name : PyStr)
    (hij : i < j) (hjn : j < n) (hf1 : r1.hasFile name = true) :
    chainReadAux (((List.replicate n ([] : List AReader)).set i [r1]).set j [r2]) name =
      r1.readF name := by
  induction n generalizing i j with
  | zero => omega
  | succ n ih =>
    cases i with
    | zero =>
      cases j with
      | zero => omega
      | succ j' =>
        simp only [List.replicate_succ, List.set_cons_zero, List.set_cons_succ]
        unfold chainReadAux readBucket
        rw [if_pos hf1]
    | succ i' =>
      cases j with
      | zero => omega
      | succ j' =>
        simp only [List.replicate_succ, List.set_cons_succ]
        unfold chainReadAux readBucket
        exact ih i' j' (by omega) (by omega)

theorem findPriority_lt_length (ps : List PyStr) (path : PyStr) (i : Nat)
    (h : findPriority ps path = some i) : i < ps.length := by
  induction ps generalizing i with
  | nil => simp [findPriority] at h
  | cons p rest ih =>
    unfold findPriority at h
    by_cases hc : listHas (pyLower p) (pyLower path) = true
    · rw [if_pos hc] at h
      cases h
      simp
    · rw [if_neg hc] at h
      cases hfind : findPriority rest path with
      | none => rw [hfind] at h; cases h
      | some i' =>
        rw [hfind] at h
        cases h
        have := ih i' hfind
        simp
        omega

theorem add_archive_eq (c : Chain) (r : AReader) (i : Nat)
    (h : findPriority c.priorities r.path = some i) :
    add_archive c r =
      .ok { c with buckets := c.buckets.set i (bucketInsert (c.buckets.getD i []) r) } := by
  unfold add_archive
  rw [h]

/-- C3. When two readers in a chain both hold a file and their paths match
different priority patterns, `read_file` serves the copy from the
higher-priority (lower-index) pattern, whichever order the readers were
added in; and a chain in which no reader has the file — the empty chain
included — yields the absent value rather than an error. -/
theorem c3_chain_priority (ps : List PyStr) (r1 r2 : AReader) (name : PyStr) (i j : Nat)
    (h1 : findPriority ps r1.path = some i)
    (h2 : findPriority ps r2.path = some j)
    (hij : i < j)
    (hf1 : r1.hasFile name = true)
    ( _hf2 : r2.hasFile name = true) :
    ((add_archive (emptyChain ps) r1).bind (fun c => add_archive c r2) =
        .ok { priorities := ps,
              buckets := ((List.replicate ps.length []).set i [r1]).set j [r2] } ∧
      chain_read_file
        { priorities := ps,
          buckets := ((List.replicate ps.length []).set i [r1]).set j [r2] } name =
        r1.readF name) ∧
    ((add_archive (emptyChain ps) r2).bind (fun c => add_archive c r1) =
        .ok { priorities := ps,
              buckets := ((List.replicate ps.length []).set j [r2]).set i [r1] } ∧
      chain_read_file
        { priorities := ps,
          buckets := ((List.replicate ps.length []).set j [r2]).set i [r1] } name =
        r1.readF name) ∧
    (∀ c : Chain, (∀ bkt ∈ c.buckets, ∀ r ∈ bkt, r.hasFile name = false) →
      chain_read_file c name = none) ∧
    chain_read_file (emptyChain ps) name = none := by
  have hjn : j < ps.length := findPriority_lt_length ps r2.path j h2
  have e1 : add_archive (emptyChain ps) r1 =
      .ok { priorities := ps, buckets := (List.replicate ps.length []).set i [r1] } := by
    rw [add_archive_eq (emptyChain ps) r1 i h1]
    rw [show (emptyChain ps).buckets = List.replicate ps.length [] from rfl,
      getD_replicate_nilBucket]
    rfl
  have e2 : add_archive (emptyChain ps) r2 =
      .ok { priorities := ps, buckets := (List.replicate ps.length []).set j [r2] } := by
    rw [add_archive_eq (emptyChain ps) r2 j h2]
    rw [show (emptyChain ps).buckets = List.replicate ps.length [] from rfl,
      getD_replicate_nilBucket]
    rfl
  have p1 : ({ priorities := ps, buckets := (List.replicate ps.length []).set i [r1] } :
      Chain).buckets = (List.replicate ps.length []).set i [r1] := rfl
  have p2 : ({ priorities := ps, buckets := (List.replicate ps.length []).set j [r2] } :
      Chain).buckets = (List.replicate ps.length []).set j [r2] := rfl
  refine ⟨⟨?_, ?_⟩, ⟨?_, ?_⟩, ?_, ?_⟩
  · rw [e1]
    show add_archive _ r2 = _
    rw [add_archive_eq _ r2 j h2, p1,
      getD_set_ne_bucket _ _ _ _ (show i ≠ j by omega), getD_replicate_nilBucket]
    rfl
  · exact chainReadAux_two_buckets ps.length i j r1 r2 name hij hjn hf1
  · rw [e2]
    show add_archive _ r1 = _
    rw [add_archive_eq _ r1 i h1, p2,
      getD_set_ne_bucket _ _ _ _ (show j ≠ i by omega), getD_replicate_nilBucket]
    rfl
  · show chainReadAux _ name = _
    rw [List.set_comm _ _ _ (show j ≠ i by omega)]
    exact chainReadAux_two_buckets ps.length i j r1 r2 name hij hjn hf1
  · intro c hall
    exact chainReadAux_none_of_all_absent c.buckets name hall
  · exact chainReadAux_none_of_all_absent _ name fun bkt hb r hr => by
      rw [List.eq_of_mem_replicate hb] at hr
      cases hr

/-- Witness for C3: a "patch" reader and a "base" reader both holding the
file; the chain (built base-first) serves the patch copy. -/
theorem c3_chain_priority_witness :
    chain_read_file
      { priorities := [pyOfString "patch", pyOfString "base"],
        buckets := ((List.replicate 2 ([] : List AReader)).set 0
            [{ rid := 1, path := pyOfString "/data/patch.mpq",
               hasFile := fun _ => true, readF := fun _ => some [112] }]).set 1
            [{ rid := 2, path := pyOfString "/data/base.mpq",
               hasFile := fun _ => true, readF := fun _ => some [98] }] }
      (pyOfString "a.txt") =
      ({ rid := 1, path := pyOfString "/data/patch.mpq",
         hasFile := fun _ => true, readF := fun _ => some [112] } : AReader).readF
        (pyOfString "a.txt") :=
  (c3_chain_priority [pyOfString "patch", pyOfString "base"]
    { rid := 1, path := pyOfString "/data/patch.mpq",
      hasFile := fun _ => true, readF := fun _ => some [112] }
    { rid := 2, path := pyOfString "/data/base.mpq",
      hasFile := fun _ => true, readF := fun _ => some [98] }
    (pyOfString "a.txt") 0 1 (by decide) (by decide) (by decide) rfl rfl).1.2

/-! ## RecordDatabase (`DBCFile`)

Modelled from the spec (§4.4, §6): a 20-byte header (`WDBC` signature and
four u32 counts), `record_count × record_size` record bytes, then the
string pool.  Columns decode in schema order advancing a byte cursor. -/

/-- The closed set of record field types. -/
inductive DBCFieldType where
  | INT
  | UINT
  | FLOAT
  | STRING
  | BOOLEAN
  | LOCALIZED_STRING
deriving DecidableEq, Repr

/-- A caller-declared column: its type, array size (default 1) and
primary-key flag. -/
structure DBCColumnDefinition where
  field_type : DBCFieldType
  array_size : Nat := 1
  is_primary_key : Bool := false
deriving DecidableEq, Repr

/-- The record-database header (spec §6). -/
structure DBCHeader where
  signature : PyStr
  record_count : Nat
  field_count : Nat
  record_size : Nat
  string_block_size : Nat
deriving DecidableEq, Repr

/-- The record-database error taxonomy (spec §7 FormatError). -/
inductive DBCError where
  | invalidSignature
deriving DecidableEq, Repr

/-- A decoded cell value.  FLOAT columns carry their raw 32-bit pattern
(no floating-point semantics are needed by any claim); LOCALIZED_STRING
carries the nine per-locale strings in locale-ordinal order; an array
column carries its elements in order. -/
inductive DBCValue where
  | uintV : Nat → DBCValue
  | intV : Int → DBCValue
  | floatBits : Nat → DBCValue
  | strV : PyStr → DBCValue
  | boolV : Bool → DBCValue
  | locV : List PyStr → DBCValue
  | arrV : List DBCValue → DBCValue

/-- Modelled from the spec: resolve a string-block offset by scanning from
the offset to the next NUL byte; offset 0 yields the empty string because
the block's first byte is always NUL.  (The bytes between are UTF-8; the
model keeps them as bytes.) -/
def getBlockString (block : PyStr) (off : Nat) : PyStr :=
  (block.drop off).takeWhile (fun b => b != 0)

/-- Modelled from the spec: `DBCFile.get_header` — validate the `WDBC`
signature, then the four little-endian u32 counts. -/
def dbcGetHeader (bs : List Nat) : Except DBCError DBCHeader :=
  if bs.take 4 = pyOfString "WDBC" then
    .ok { signature := pyOfString "WDBC", record_count := readU32 bs 4,
          field_count := readU32 bs 8, record_size := readU32 bs 12,
          string_block_size := readU32 bs 16 }
  else .error .invalidSignature

/-- Byte width of one column: scalars and arrays are 4 bytes per element, a
localized string is 9 consecutive u32 offsets (36 bytes). -/
def columnWidth (d : DBCColumnDefinition) : Nat :=
  match d.field_type with
  | .LOCALIZED_STRING => 36
  | _ => 4 * d.array_size

/-- Decode one scalar of the given type at a byte offset of the record. -/
def decodeScalar (t : DBCFieldType) (rec block : PyStr) (off : Nat) : DBCValue :=
  match t with
  | .UINT => .uintV (readU32 rec off)
  | .INT => .intV (if readU32 rec off < 2 ^ 31 then (readU32 rec off : Int)
      else (readU32 rec off : Int) - 2 ^ 32)
  | .FLOAT => .floatBits (readU32 rec off)
  | .BOOLEAN => .boolV (readU32 rec off != 0)
  | .STRING => .strV (getBlockString block (readU32 rec off))
  | .LOCALIZED_STRING =>
      .locV ((List.range 9).map (fun k => getBlockString block (readU32 rec (off + 4 * k))))

/-- Decode one column: a localized string is one value; an array column
(`array_size > 1`) is the ordered sequence of its scalar elements. -/
def decodeColumn (d : DBCColumnDefinition) (rec block : PyStr) (off : Nat) : DBCValue :=
  match d.field_type with
  | .LOCALIZED_STRING => decodeScalar .LOCALIZED_STRING rec block off
  | t =>
    if d.array_size = 1 then decodeScalar t rec block off
    else .arrV ((List.range d.array_size).map (fun k => decodeScalar t rec block (off + 4 * k)))

/-- Decode the columns of one record in schema order, advancing the byte
cursor by each column's width. -/
def decodeRecordAux (defs : List DBCColumnDefinition) (rec block : PyStr) (off : Nat) :
    List DBCValue :=
  match defs with
  | [] => []
  | d :: rest =>
    decodeColumn d rec block off :: decodeRecordAux rest rec block (off + columnWidth d)

/-- Decode one whole record against the schema. -/
def decodeRecord (defs : List DBCColumnDefinition) (rec block : PyStr) : List DBCValue :=
  decodeRecordAux defs rec block 0

/-- Modelled from the spec: the default schema synthesized for an empty
caller schema — `field_count` scalar UINT columns, the first marked primary
key. -/
def generate_default_definitions (n : Nat) : List DBCColumnDefinition :=
  (List.range n).map
    (fun k => { field_type := .UINT, array_size := 1, is_primary_key := k == 0 })

/-- Modelled from the spec: `DBCFile.get_records` — parse the header, take
the string pool right after the `record_count × record_size` record bytes,
and decode each record at byte `20 + i × record_size` in schema order
(synthesizing the default schema when the caller's is empty). -/
def dbcGetRecords (bs : List Nat) (defs : List DBCColumnDefinition) :
    Except DBCError (List (List DBCValue)) :=
  match dbcGetHeader bs with
  | .error e => .error e
  | .ok h =>
    let defs2 := if defs = [] then generate_default_definitions h.field_count else defs
    let block := (bs.drop (20 + h.record_count * h.record_size)).take h.string_block_size
    .ok ((List.range h.record_count).map
      (fun iRow =>
        decodeRecord defs2 ((bs.drop (20 + iRow * h.record_size)).take h.record_size) block))

/-- Assemble a record-database byte file exactly as the repository's test
helper `create_dbc_file` does: 20-byte header, records, string block. -/
def mkDbcFile (rc fc rs : Nat) (records block : PyStr) : List Nat :=
  pyOfString "WDBC" ++ bytesOfWord rc ++ bytesOfWord fc ++ bytesOfWord rs ++
    bytesOfWord block.length ++ records ++ block

theorem readU32_bytesOfWord (v : Nat) (h : v < 2 ^ 32) : readU32 (bytesOfWord v) 0 = v := by
  have hv : readU32 (bytesOfWord v) 0 =
      (v % 256 + 256 * (v / 256 % 256)) +
        65536 * (v / 65536 % 256 + 256 * (v / 16777216 % 256)) := rfl
  rw [hv]
  omega

/-- C9. A STRING column decodes by reading its u32 offset and scanning the
string block from that offset to the next NUL; with a NUL-leading block,
offset 0 decodes to the empty string.  Concretely, against the string block
`\x00Test String\x00`, a stored offset of 1 decodes to "Test String"
through `get_records`, and a stored offset of 0 decodes to "". -/
theorem c9_string_decode (block : PyStr) (off : Nat) (hoff : off < 2 ^ 32)
    (hnul : block.head? = some 0) :
    decodeRecord [{ field_type := .STRING, array_size := 1, is_primary_key := false }]
        (bytesOfWord off) block =
      [.strV ((block.drop off).takeWhile (fun b => b != 0))] ∧
    decodeRecord [{ field_type := .STRING, array_size := 1, is_primary_key := false }]
        (bytesOfWord 0) block = [.strV []] ∧
    dbcGetRecords (mkDbcFile 1 1 4 (bytesOfWord 1) (0 :: pyOfString "Test String" ++ [0]))
        [{ field_type := .STRING, array_size := 1, is_primary_key := false }] =
      .ok [[.strV (pyOfString "Test String")]] ∧
    dbcGetRecords (mkDbcFile 1 1 4 (bytesOfWord 0) [0])
        [{ field_type := .STRING, array_size := 1, is_primary_key := false }] =
      .ok [[.strV []]] := by
  refine ⟨?_, ?_, rfl, rfl⟩
  · unfold decodeRecord decodeRecordAux decodeColumn decodeScalar getBlockString
    rw [readU32_bytesOfWord off hoff]
    rfl
  · obtain ⟨tl, rfl⟩ : ∃ tl, block = 0 :: tl := by
      cases block with
      | nil => cases hnul
      | cons b tl =>
        simp only [List.head?_cons, Option.some.injEq] at hnul
        exact ⟨tl, by rw [hnul]⟩
    rfl

/-- Witness for C9 at offset 1 against the block `\x00Test String\x00`. -/
theorem c9_string_decode_witness :
    decodeRecord [{ field_type := .STRING, array_size := 1, is_primary_key := false }]
        (bytesOfWord 1) (0 :: pyOfString "Test String" ++ [0]) =
      [.strV (((0 :: pyOfString "Test String" ++ [0]).drop 1).takeWhile (fun b => b != 0))] :=
  (c9_string_decode (0 :: pyOfString "Test String" ++ [0]) 1 (by decide) List.head?_cons).1

/-! ## Row schema reflection (`DBCRowWithDefinitions`, C10) -/

/-- A dataclass field as `get_definitions` sees it: its metadata mapping,
modelled as an association list standing for the Python metadata dict. -/
structure PyField where
  metadata : List (String × DBCColumnDefinition)

/-- Python `dict.get(key)`: the value of the first entry with the key,
`none` when the key is absent. -/
def assocGet (key : String) : List (String × DBCColumnDefinition) → Option DBCColumnDefinition
  | [] => none
  | (k, v) :: rest => if k = key then some v else assocGet key rest

/-- The metadata key under which a column definition is declared. -/
def METADATA_KEY : String := "definition"

/-- Modelled from the spec: `DBCRowWithDefinitions.get_definitions` — one
entry per dataclass field in declaration order, each the field's
`metadata.get("definition")` (None when the key is absent, rather than an
error). -/
def get_definitions (fields : List PyField) : List (Option DBCColumnDefinition) :=
  fields.map (fun f => assocGet METADATA_KEY f.metadata)

theorem assocGet_none_of_absent (key : String) (m : List (String × DBCColumnDefinition))
    (h : ∀ p ∈ m, p.1 ≠ key) : assocGet key m = none := by
  induction m with
  | nil => rfl
  | cons p rest ih =>
    unfold assocGet
    rw [if_neg (h p (List.mem_cons_self p rest))]
    exact ih fun q hq => h q (List.mem_cons_of_mem p hq)

/-- C10. `get_definitions` never fails on a field without definition
metadata: the result has exactly one element per field in declaration
order, is `none` at a position whose field lacks the "definition" key, and
is the declared column definition at a position whose field declares one. -/
theorem c10_get_definitions (fields : List PyField) (i : Nat) (f : PyField)
    (hf : fields[i]? = some f) :
    (get_definitions fields).length = fields.length ∧
    ((∀ p ∈ f.metadata, p.1 ≠ METADATA_KEY) → (get_definitions fields)[i]? = some none) ∧
    (∀ (d : DBCColumnDefinition) (rest : List (String × DBCColumnDefinition)),
      f.metadata = (METADATA_KEY, d) :: rest → (get_definitions fields)[i]? = some (some d)) := by
  have hmap : (get_definitions fields)[i]? = some (assocGet METADATA_KEY f.metadata) := by
    unfold get_definitions
    rw [List.getElem?_map, hf]
    rfl
  refine ⟨by simp [get_definitions], ?_, ?_⟩
  · intro habsent
    rw [hmap, assocGet_none_of_absent METADATA_KEY f.metadata habsent]
  · intro d rest hmeta
    rw [hmap, hmeta]
    unfold assocGet
    rw [if_pos rfl]

/-- Witness for C10: two fields, the first declaring a definition, the
second with empty metadata; position 1 yields `none`. -/
theorem c10_get_definitions_witness :
    (get_definitions
        [{ metadata := [(METADATA_KEY,
            { field_type := .UINT, array_size := 1, is_primary_key := true })] },
         { metadata := [] }])[1]? = some none :=
  ((c10_get_definitions
    [{ metadata := [(METADATA_KEY,
        { field_type := .UINT, array_size := 1, is_primary_key := true })] },
     { metadata := [] }] 1 { metadata := [] } rfl).2.1)
    (fun p hp => by cases hp)
